import Mathlib

/-!
Verification of `django-cloud-deploy`'s requirements parser
(`django_cloud_deploy/skeleton/requirements_parser.py`) and crash handler
(`django_cloud_deploy/crash_handling/__init__.py`) via a shallow embedding.

Strings are modelled by Lean `String`s, manipulated through their `List Char`
data; the filesystem is an association list from paths to file contents; the
unbounded recursion of `parse` over `-r` includes is made total with a fuel
parameter (`none` = fuel exhausted).
-/

set_option autoImplicit false

namespace Requirements

/-- The characters Python's `str.strip()` removes (ASCII whitespace). -/
def isPySpace (c : Char) : Bool :=
  c = ' ' || c = '\t' || c = '\n' || c = '\x0d' || c = '\x0b' || c = '\x0c'

/-- The delimiter character class of `re.split(r'[;\[~>=<]', line)`. -/
def isDelim (c : Char) : Bool :=
  c = ';' || c = '[' || c = '~' || c = '>' || c = '=' || c = '<'

/-- Drop leading characters satisfying `isPySpace`. -/
def trimAtStart (xs : List Char) : List Char := xs.dropWhile isPySpace

/-- Drop trailing characters satisfying `isPySpace`. -/
def trimAtEnd (xs : List Char) : List Char :=
  ((xs.reverse).dropWhile isPySpace).reverse

/-- Python's `str.strip()` on the character list. -/
def stripChars (xs : List Char) : List Char := trimAtEnd (trimAtStart xs)

/-- Python's `str.strip()`. -/
def pyStrip (s : String) : String := String.mk (stripChars s.data)

/-- `re.split` / `str.split(sep)` semantics on a character class: split at every
character satisfying `p`, keeping empty segments.  The result is never `[]`. -/
def splitOnPred (p : Char → Bool) : List Char → List (List Char)
  | [] => [[]]
  | c :: cs =>
    if p c then [] :: splitOnPred p cs
    else
      match splitOnPred p cs with
      | [] => [[c]]
      | s :: ss => (c :: s) :: ss

/-- `parse_line` from `requirements_parser.py`:
`re.split(r'[;\[~>=<]', line)[0].strip()`. -/
def parse_line (line : String) : String :=
  String.mk (stripChars ((splitOnPred isDelim line.data).headD []))

/-- `pre.isPrefixOf s` on string data: models Python `str.startswith`. -/
def strStarts (pre s : String) : Bool := pre.data.isPrefixOf s.data

/-- The guard `not line or line.startswith('#') or line.startswith('\x22\x22\x22')`
applied to the stripped line: such lines are skipped by `parse`. -/
def isSkipLine (l : String) : Bool :=
  l = "" || strStarts "#" l || strStarts "\"\"\"" l

/-- The guard `line.startswith('-r')` applied to the stripped line. -/
def isIncludeDirective (l : String) : Bool := strStarts "-r" l

/-- Python `line.split(' ')[-1]`: the final segment when splitting on the space
character (empty segments preserved, as Python's `split` with an explicit
separator does). -/
def lastSpaceTok (l : String) : String :=
  String.mk ((splitOnPred (fun c => c = ' ') l.data).getLastD [])

/-- `posixpath.dirname` (`os.path.dirname` on POSIX): everything up to the last
slash, with trailing slashes removed unless the result is all slashes. -/
def dirname (p : String) : String :=
  let head := ((p.data.reverse).dropWhile (fun c => c ≠ '/')).reverse
  if head = [] then ""
  else if head.all (fun c => c = '/') then String.mk head
  else String.mk ((head.reverse.dropWhile (fun c => c = '/')).reverse)

/-- `posixpath.join a b` (`os.path.join` on POSIX, two arguments): `b` if
absolute, otherwise `a` and `b` joined with a slash unless `a` is empty or
already ends in one. -/
def osJoin (a b : String) : String :=
  if strStarts "/" b then b
  else if a = "" || (a.data.getLast?) = some '/' then a ++ b
  else a ++ "/" ++ b

/-- Worker for `splitLinesChars`: `acc` holds the current line, reversed. -/
def splitLinesGo : List Char → List Char → List (List Char)
  | acc, [] => [acc.reverse]
  | acc, '\x0d' :: '\n' :: [] => [acc.reverse]
  | acc, '\x0d' :: '\n' :: rest => acc.reverse :: splitLinesGo [] rest
  | acc, '\n' :: [] => [acc.reverse]
  | acc, '\n' :: rest => acc.reverse :: splitLinesGo [] rest
  | acc, '\x0d' :: [] => [acc.reverse]
  | acc, '\x0d' :: rest => acc.reverse :: splitLinesGo [] rest
  | acc, c :: rest => splitLinesGo (c :: acc) rest

/-- Python `str.splitlines()` on character data: lines terminated by `\n`,
`\r\n` or `\r`; a terminator at the very end produces no extra empty line. -/
def splitLinesChars (xs : List Char) : List (List Char) :=
  splitLinesGo [] xs

/-- Python `str.splitlines()`: `""` gives no lines at all. -/
def pySplitlines (s : String) : List String :=
  if s.data = [] then [] else (splitLinesChars s.data).map String.mk

/-- The filesystem: an association list from absolute paths to file contents.
`os.path.exists`/`open` are modelled by lookup in this list. -/
def FS : Type := List (String × String)

/-- Lookup of a path in the filesystem. -/
def lookupFS : FS → String → Option String
  | [], _ => none
  | (k, v) :: rest, p => if k = p then some v else lookupFS rest p

/-- The path recursively parsed by an include line `l` (already stripped) found
in a file of directory `dir`:
`os.path.join(dir_path, line.split(' ')[-1])`. -/
def includeTarget (dir l : String) : String := osJoin dir (lastSpaceTok l)

/-- The body of `parse`'s `for line in lines` loop, with the recursive
`parse` call abstracted as `recurse` (`none` propagates fuel exhaustion).
`acc` is the running `results` set. -/
def processLines (recurse : String → Option (Finset String)) (dir : String) :
    List String → Finset String → Option (Finset String)
  | [], acc => some acc
  | l :: rest, acc =>
    let s := pyStrip l
    if isSkipLine s then processLines recurse dir rest acc
    else if isIncludeDirective s then
      match recurse (includeTarget dir s) with
      | none => none
      | some sub => processLines recurse dir rest (acc ∪ sub)
    else processLines recurse dir rest (insert (parse_line s) acc)

/-- `parse` from `requirements_parser.py`, with a fuel bound on the include
recursion depth: `some` is the set `parse` returns, `none` means the recursion
exceeded the fuel. -/
def parseFuel (fs : FS) : Nat → String → Option (Finset String)
  | 0, _ => none
  | n + 1, p =>
    match lookupFS fs p with
    | none => some ∅
    | some content =>
      processLines (fun q => parseFuel fs n q) (dirname p)
        (pySplitlines content) ∅

/-- The include targets contributed by the (raw) lines of a file living in
directory `dir`: one per line that reaches the `-r` branch of `parse`. -/
def includeTargets (dir : String) (lines : List String) : List String :=
  lines.filterMap (fun l =>
    let s := pyStrip l
    if isSkipLine s then none
    else if isIncludeDirective s then some (includeTarget dir s)
    else none)

/-- The paths `parse p` recurses into, on filesystem `fs`. -/
def stepTargets (fs : FS) (p : String) : List String :=
  match lookupFS fs p with
  | none => []
  | some content => includeTargets (dirname p) (pySplitlines content)

/-- The edge relation of the include graph: `parse p` directly recurses into
`parse q`. -/
def Step (fs : FS) (p q : String) : Prop := q ∈ stepTargets fs p

/-- The include graph of `fs` has no (reachable) cycle. -/
def Acyclic (fs : FS) : Prop := ∀ p, ¬ Relation.TransGen (Step fs) p p

/-- The paths that exist on the filesystem, as a finite set. -/
def keysFS (fs : FS) : Finset String := (fs.map Prod.fst).toFinset

end Requirements

namespace CrashHandling

/-- `subprocess.CalledProcessError` as raised by `subprocess.check_output`:
only its captured `stderr` is consulted by the code. -/
structure SubprocessError where
  stderr : String
deriving DecidableEq

/-- Outcome of probing one external tool: `absent` models
`shutil.which(...) = None`; `output` a successful `check_output`; `fails` a
`check_output` raising `CalledProcessError`. -/
inductive ProbeResult where
  | absent
  | output (out : String)
  | fails (e : SubprocessError)
deriving DecidableEq

/-- The environment of the three external tools probed by
`_create_issue_body`. -/
structure ToolEnv where
  gcloud : ProbeResult
  docker : ProbeResult
  cloud_sql_proxy : ProbeResult
deriving DecidableEq

/-- Python exceptions the embedded crash-handling code can raise itself. -/
inductive PyExc where
  | nameError (name : String)
deriving DecidableEq

/-- Python `str.rstrip()`: remove trailing whitespace. -/
def pyRstrip (s : String) : String :=
  String.mk (Requirements.trimAtEnd s.data)

/-- `repr` of a Python string as used by `'Error: \x7b!r\x7d'.format(e.stderr)`,
modelled for strings without quotes or escapes: the text between single
quotes. -/
def pyRepr (s : String) : String := "\x27" ++ s ++ "\x27"

/-- The `gcloud_version` block of `_create_issue_body`: the
`except subprocess.CalledProcessError as e` handler binds `e`, so a failing
probe is formatted into a placeholder and nothing is raised. -/
def gcloud_version (env : ToolEnv) : Except PyExc String :=
  match env.gcloud with
  | .absent => .ok "Not installed or not on PATH"
  | .output out => .ok (pyRstrip out)
  | .fails e => .ok ("Error: " ++ pyRepr e.stderr)

/-- The `docker_version` block of `_create_issue_body`: its handler reads
`except subprocess.CalledProcessError:` — without `as e` — and then evaluates
`e.stderr`.  `e` is unbound there (Python 3 deletes an `except ... as e`
binding at the end of its own block, and this block never binds one), so a
failing probe raises `NameError` out of the function. -/
def docker_version (env : ToolEnv) : Except PyExc String :=
  match env.docker with
  | .absent => .ok "Not installed or not on PATH"
  | .output out => .ok (pyRstrip out)
  | .fails _ => .error (.nameError "e")

/-- The `cloud_sql_proxy_version` block of `_create_issue_body`: same unbound
`e` as the docker block. -/
def cloud_sql_proxy_version (env : ToolEnv) : Except PyExc String :=
  match env.cloud_sql_proxy with
  | .absent => .ok "Not installed or not on PATH"
  | .output out => .ok (pyRstrip out)
  | .fails _ => .error (.nameError "e")

/-- Modelled from the spec: the jinja2 render of the issue template (the
template file `crash_handling/template/issue_template.txt` is not in the
excerpt) — "a templating capability rendering a fixed textual template against
a mapping of named values"; modelled as embedding each value in a labelled
report body. -/
def renderIssueTemplate (command g d c : String) : String :=
  "command: " ++ command ++ "\ngcloud version: " ++ g ++
  "\ndocker version: " ++ d ++ "\ncloud sql proxy version: " ++ c

/-- `_create_issue_body`: probes the three tools in order and renders the
report; an exception escaping a probe block propagates to the caller. -/
def create_issue_body (env : ToolEnv) (command : String) :
    Except PyExc String := do
  let g ← gcloud_version env
  let d ← docker_version env
  let c ← cloud_sql_proxy_version env
  pure (renderIssueTemplate command g d c)

/-- An exception as seen by `handle_crash`: whether it is an instance of a
class in `_DISPLAYABLE_EXCEPTIONS = [UserError]`, its `__cause__`
(`none` models Python `None`), and the class name and message used for the
issue title. -/
structure PyError where
  isUserError : Bool
  cause : Option String
  className : String
  msg : String
deriving DecidableEq

/-- The observable side effects `handle_crash` can perform, in order. -/
inductive Effect where
  | createdLog (path : String)
  | wroteLog (path content : String)
  | told (msg : String)
  | asked (question : String)
  | openedIssue (title content : String)
deriving DecidableEq

/-- What `handle_crash` raises, when it raises. -/
inductive Raised where
  | rethrow (cause : Option String)
  | exc (e : PyExc)
  | noMoreInput
deriving DecidableEq

/-- `_create_issue_title`:
`'\x7b\x7d:\x7b\x7d during "\x7b\x7d"'.format(type(err).__name__, str(err), command)`. -/
def create_issue_title (err : PyError) (command : String) : String :=
  err.className ++ ":" ++ err.msg ++ " during \"" ++ command ++ "\""

/-- The prompt of the `while True` ask loop. -/
def askQuestion : String := "Would you like to file a bug? [y/N]: "

/-- Python `str.lower()` (ASCII). -/
def pyLower (s : String) : String := String.mk (s.data.map Char.toLower)

/-- The `while True` loop of `handle_crash`: asks until the stripped, lowered
answer is empty or one of `y`/`n`; consumes answers from `answers`; returns
the `asked` effects and the final answer (`none` when input runs out). -/
def askLoop : List String → List Effect × Option String
  | [] => ([], none)
  | a :: rest =>
    let ans := pyLower (Requirements.pyStrip a)
    if ans = "" || ans = "y" || ans = "n" then ([.asked askQuestion], some ans)
    else
      let (effs, r) := askLoop rest
      (.asked askQuestion :: effs, r)

/-- The message `console.tell` receives. -/
def tellMsg (command logPath : String) : String :=
  "Your \"" ++ command ++ "\" failed due to an internal error." ++
  "\n\n" ++
  "You can report this error by filing a bug on Github. If you agree,\n" ++
  "a browser window will open and an Github issue will be\n" ++
  "pre-populated with the details of this crash.\n" ++
  "For more details, see: " ++ logPath

/-- `handle_crash`: returns the effects performed in order, and what was
raised, if anything.  `logPath` is the path `tempfile.mkstemp` produced;
`answers` the stream of `console.ask` responses. -/
def handle_crash (err : PyError) (command : String) (env : ToolEnv)
    (logPath : String) (answers : List String) :
    List Effect × Option Raised :=
  if err.isUserError then ([], some (.rethrow err.cause))
  else
    match create_issue_body env command with
    | .error e => ([.createdLog logPath], some (.exc e))
    | .ok content =>
      let title := create_issue_title err command
      let pre : List Effect :=
        [.createdLog logPath, .wroteLog logPath content,
         .told (tellMsg command logPath)]
      match askLoop answers with
      | (effs, none) => (pre ++ effs, some .noMoreInput)
      | (effs, some ans) =>
        if ans = "y" then (pre ++ effs ++ [.openedIssue title content], none)
        else (pre ++ effs, none)

end CrashHandling

namespace Requirements

theorem splitOnPred_ne_nil (p : Char → Bool) (xs : List Char) :
    splitOnPred p xs ≠ [] := by
  cases xs with
  | nil => simp [splitOnPred]
  | cons c cs =>
    by_cases h : p c
    · simp [splitOnPred, h]
    · simp only [splitOnPred, h]
      cases splitOnPred p cs <;> simp

theorem headD_splitOnPred (p : Char → Bool) (xs : List Char) :
    (splitOnPred p xs).headD [] = xs.takeWhile (fun c => !p c) := by
  induction xs with
  | nil => rfl
  | cons c cs ih =>
    by_cases h : p c
    · simp [splitOnPred, h, List.takeWhile_cons]
    · simp only [splitOnPred, h, if_false, List.takeWhile_cons]
      rcases hs : splitOnPred p cs with _ | ⟨s, ss⟩
      · exact absurd hs (splitOnPred_ne_nil p cs)
      · simp only [hs, List.headD_cons] at ih
        simp [h, ih]

theorem dropWhile_dropWhile (p : Char → Bool) (l : List Char) :
    (l.dropWhile p).dropWhile p = l.dropWhile p := by
  induction l with
  | nil => rfl
  | cons a l ih =>
    by_cases h : p a
    · simp [List.dropWhile_cons, h, ih]
    · simp [List.dropWhile_cons, h]

theorem head_not_of_dropWhile_eq_cons {p : Char → Bool} {l t : List Char}
    {a : Char} (h : l.dropWhile p = a :: t) : p a = false := by
  by_contra hb
  have ha : p a = true := by
    cases hpa : p a
    · exact absurd hpa hb
    · rfl
  have := List.head?_dropWhile_not p l
  rw [h] at this
  simp [ha] at this

theorem dropWhile_eq_self_of_prefix {p : Char → Bool} {t l : List Char}
    (hl : l.dropWhile p = l) (ht : t <+: l) : t.dropWhile p = t := by
  cases t with
  | nil => rfl
  | cons a t' =>
    obtain ⟨u, hu⟩ := ht
    have ha : p a = false := by
      apply head_not_of_dropWhile_eq_cons (l := l) (t := t' ++ u)
      rw [hl, ← hu]
      rfl
    simp [List.dropWhile_cons, ha]

theorem trimAtEnd_prefix (xs : List Char) : trimAtEnd xs <+: xs := by
  unfold trimAtEnd
  have h : xs.reverse.dropWhile isPySpace <:+ xs.reverse :=
    List.dropWhile_suffix _
  have h2 := List.reverse_prefix.mpr h
  rwa [List.reverse_reverse] at h2

theorem trimAtEnd_trimAtEnd (xs : List Char) :
    trimAtEnd (trimAtEnd xs) = trimAtEnd xs := by
  unfold trimAtEnd
  rw [List.reverse_reverse, dropWhile_dropWhile]

theorem trimAtStart_stripChars (xs : List Char) :
    trimAtStart (stripChars xs) = stripChars xs := by
  show (stripChars xs).dropWhile isPySpace = stripChars xs
  apply dropWhile_eq_self_of_prefix (l := trimAtStart xs)
  · exact dropWhile_dropWhile isPySpace xs
  · exact trimAtEnd_prefix _

theorem stripChars_stripChars (xs : List Char) :
    stripChars (stripChars xs) = stripChars xs := by
  calc stripChars (stripChars xs)
      = trimAtEnd (trimAtStart (stripChars xs)) := rfl
    _ = trimAtEnd (stripChars xs) := by rw [trimAtStart_stripChars]
    _ = trimAtEnd (trimAtStart xs) := trimAtEnd_trimAtEnd _
    _ = stripChars xs := rfl

theorem mem_stripChars {c : Char} {xs : List Char} (h : c ∈ stripChars xs) :
    c ∈ xs := by
  unfold stripChars trimAtEnd trimAtStart at h
  rw [List.mem_reverse] at h
  have h2 := (List.dropWhile_sublist (l := (xs.dropWhile isPySpace).reverse)
    isPySpace).subset h
  rw [List.mem_reverse] at h2
  exact (List.dropWhile_sublist isPySpace).subset h2

theorem pyStrip_parse_line (l : String) :
    pyStrip (parse_line l) = parse_line l := by
  show String.mk (stripChars (stripChars _)) = _
  rw [stripChars_stripChars]
  rfl

theorem noDelim_parse_line (l : String) :
    ∀ c ∈ (parse_line l).data, isDelim c = false := by
  intro c hc
  have hc2 : c ∈ (splitOnPred isDelim l.data).headD [] := mem_stripChars hc
  rw [headD_splitOnPred] at hc2
  have := List.mem_takeWhile_imp hc2
  simpa using this

theorem include_not_skip {s : String} (h : isIncludeDirective s = true) :
    isSkipLine s = false := by
  obtain ⟨t, ht⟩ := List.isPrefixOf_iff_prefix.mp h
  have hd : s.data = '-' :: 'r' :: t := by
    rw [← ht]
    rfl
  have hne : ¬ s = "" := by
    intro he
    rw [he] at hd
    exact absurd hd (by simp [String.data])
  simp [isSkipLine, strStarts, hd, hne, List.isPrefixOf]

theorem processLines_nil (recurse : String → Option (Finset String))
    (dir : String) (acc : Finset String) :
    processLines recurse dir [] acc = some acc := rfl

theorem processLines_cons_skip {l : String}
    (h : isSkipLine (pyStrip l) = true)
    (recurse : String → Option (Finset String)) (dir : String)
    (rest : List String) (acc : Finset String) :
    processLines recurse dir (l :: rest) acc =
      processLines recurse dir rest acc := by
  simp [processLines, h]

theorem processLines_cons_include {l : String}
    (h : isIncludeDirective (pyStrip l) = true)
    (recurse : String → Option (Finset String)) (dir : String)
    (rest : List String) (acc : Finset String) :
    processLines recurse dir (l :: rest) acc =
      match recurse (includeTarget dir (pyStrip l)) with
      | none => none
      | some sub => processLines recurse dir rest (acc ∪ sub) := by
  simp [processLines, include_not_skip h, h]

theorem processLines_cons_add {l : String}
    (h1 : isSkipLine (pyStrip l) = false)
    (h2 : isIncludeDirective (pyStrip l) = false)
    (recurse : String → Option (Finset String)) (dir : String)
    (rest : List String) (acc : Finset String) :
    processLines recurse dir (l :: rest) acc =
      processLines recurse dir rest (insert (parse_line (pyStrip l)) acc) := by
  simp [processLines, h1, h2]

theorem subset_of_processLines {recurse : String → Option (Finset String)}
    {dir : String} :
    ∀ (ls : List String) (acc r : Finset String),
      processLines recurse dir ls acc = some r → acc ⊆ r := by
  intro ls
  induction ls with
  | nil =>
    intro acc r h
    rw [processLines_nil] at h
    cases h
    exact Finset.Subset.refl _
  | cons l rest ih =>
    intro acc r h
    cases hs : isSkipLine (pyStrip l) with
    | true =>
      rw [processLines_cons_skip hs] at h
      exact ih acc r h
    | false =>
      cases hi : isIncludeDirective (pyStrip l) with
      | true =>
        rw [processLines_cons_include hi] at h
        cases hr : recurse (includeTarget dir (pyStrip l)) with
        | none =>
          rw [hr] at h
          exact absurd h (by simp)
        | some sub =>
          rw [hr] at h
          exact Finset.Subset.trans Finset.subset_union_left (ih _ r h)
      | false =>
        rw [processLines_cons_add hs hi] at h
        exact Finset.Subset.trans (Finset.subset_insert _ _) (ih _ r h)

theorem mem_of_processLines {recurse : String → Option (Finset String)}
    {dir : String} :
    ∀ (ls : List String) (acc r : Finset String) (l : String), l ∈ ls →
      isSkipLine (pyStrip l) = false → isIncludeDirective (pyStrip l) = false →
      processLines recurse dir ls acc = some r →
      parse_line (pyStrip l) ∈ r := by
  intro ls
  induction ls with
  | nil =>
    intro acc r l hl
    exact absurd hl (List.not_mem_nil l)
  | cons a rest ih =>
    intro acc r l hl hskip hincl h
    rcases List.mem_cons.mp hl with rfl | hl2
    · rw [processLines_cons_add hskip hincl] at h
      exact subset_of_processLines rest _ r h (Finset.mem_insert_self _ _)
    · cases hs : isSkipLine (pyStrip a) with
      | true =>
        rw [processLines_cons_skip hs] at h
        exact ih acc r l hl2 hskip hincl h
      | false =>
        cases hi : isIncludeDirective (pyStrip a) with
        | true =>
          rw [processLines_cons_include hi] at h
          cases hr : recurse (includeTarget dir (pyStrip a)) with
          | none =>
            rw [hr] at h
            exact absurd h (by simp)
          | some sub =>
            rw [hr] at h
            exact ih _ r l hl2 hskip hincl h
        | false =>
          rw [processLines_cons_add hs hi] at h
          exact ih _ r l hl2 hskip hincl h

theorem processLines_all_skip {recurse : String → Option (Finset String)}
    {dir : String} :
    ∀ (ls : List String) (acc : Finset String),
      (∀ l ∈ ls, isSkipLine (pyStrip l) = true) →
      processLines recurse dir ls acc = some acc := by
  intro ls
  induction ls with
  | nil => intro acc _; exact processLines_nil recurse dir acc
  | cons l rest ih =>
    intro acc hall
    rw [processLines_cons_skip (hall l (List.mem_cons_self l rest))]
    exact ih acc (fun x hx => hall x (List.mem_cons_of_mem l hx))

theorem parseFuel_zero (fs : FS) (p : String) : parseFuel fs 0 p = none := rfl

theorem parseFuel_succ (fs : FS) (n : Nat) (p : String) :
    parseFuel fs (n + 1) p =
      match lookupFS fs p with
      | none => some ∅
      | some content =>
        processLines (fun q => parseFuel fs n q) (dirname p)
          (pySplitlines content) ∅ := rfl

theorem processLines_good {recurse : String → Option (Finset String)}
    {dir : String}
    (hrec : ∀ q s, recurse q = some s →
      ∀ x ∈ s, (∀ c ∈ x.data, isDelim c = false) ∧ pyStrip x = x) :
    ∀ (ls : List String) (acc : Finset String),
      (∀ x ∈ acc, (∀ c ∈ x.data, isDelim c = false) ∧ pyStrip x = x) →
      ∀ r, processLines recurse dir ls acc = some r →
      ∀ x ∈ r, (∀ c ∈ x.data, isDelim c = false) ∧ pyStrip x = x := by
  intro ls
  induction ls with
  | nil =>
    intro acc hacc r h
    rw [processLines_nil] at h
    cases h
    exact hacc
  | cons l rest ih =>
    intro acc hacc r h
    cases hs : isSkipLine (pyStrip l) with
    | true =>
      rw [processLines_cons_skip hs] at h
      exact ih acc hacc r h
    | false =>
      cases hi : isIncludeDirective (pyStrip l) with
      | true =>
        rw [processLines_cons_include hi] at h
        cases hr : recurse (includeTarget dir (pyStrip l)) with
        | none =>
          rw [hr] at h
          exact absurd h (by simp)
        | some sub =>
          rw [hr] at h
          refine ih _ ?_ r h
          intro x hx
          rcases Finset.mem_union.mp hx with hx1 | hx2
          · exact hacc x hx1
          · exact hrec _ sub hr x hx2
      | false =>
        rw [processLines_cons_add hs hi] at h
        refine ih _ ?_ r h
        intro x hx
        rcases Finset.mem_insert.mp hx with rfl | hx2
        · exact ⟨noDelim_parse_line _, pyStrip_parse_line _⟩
        · exact hacc x hx2

theorem parseFuel_good (fs : FS) :
    ∀ (n : Nat) (p : String) (r : Finset String),
      parseFuel fs n p = some r →
      ∀ x ∈ r, (∀ c ∈ x.data, isDelim c = false) ∧ pyStrip x = x := by
  intro n
  induction n with
  | zero =>
    intro p r h
    exact absurd h (by simp [parseFuel_zero])
  | succ m ih =>
    intro p r h
    rw [parseFuel_succ] at h
    cases hl : lookupFS fs p with
    | none =>
      rw [hl] at h
      cases h
      intro x hx
      exact absurd hx (Finset.not_mem_empty x)
    | some content =>
      rw [hl] at h
      refine processLines_good ?_ (pySplitlines content) ∅ ?_ r h
      · intro q s hq
        exact ih q s hq
      · intro x hx
        exact absurd hx (Finset.not_mem_empty x)

theorem includeTargets_nil (dir : String) : includeTargets dir [] = [] := rfl

theorem includeTargets_cons_skip {l : String}
    (h : isSkipLine (pyStrip l) = true) (dir : String) (rest : List String) :
    includeTargets dir (l :: rest) = includeTargets dir rest := by
  simp [includeTargets, List.filterMap_cons, h]

theorem includeTargets_cons_include {l : String}
    (h : isIncludeDirective (pyStrip l) = true) (dir : String)
    (rest : List String) :
    includeTargets dir (l :: rest) =
      includeTarget dir (pyStrip l) :: includeTargets dir rest := by
  simp [includeTargets, List.filterMap_cons, include_not_skip h, h]

theorem includeTargets_cons_add {l : String}
    (h1 : isSkipLine (pyStrip l) = false)
    (h2 : isIncludeDirective (pyStrip l) = false) (dir : String)
    (rest : List String) :
    includeTargets dir (l :: rest) = includeTargets dir rest := by
  simp [includeTargets, List.filterMap_cons, h1, h2]

theorem processLines_isSome {recurse : String → Option (Finset String)}
    {dir : String} :
    ∀ (ls : List String) (acc : Finset String),
      (∀ q ∈ includeTargets dir ls, (recurse q).isSome = true) →
      (processLines recurse dir ls acc).isSome = true := by
  intro ls
  induction ls with
  | nil =>
    intro acc _
    rw [processLines_nil]
    rfl
  | cons l rest ih =>
    intro acc htg
    cases hs : isSkipLine (pyStrip l) with
    | true =>
      rw [processLines_cons_skip hs]
      rw [includeTargets_cons_skip hs] at htg
      exact ih acc htg
    | false =>
      cases hi : isIncludeDirective (pyStrip l) with
      | true =>
        rw [processLines_cons_include hi]
        rw [includeTargets_cons_include hi] at htg
        have h1 : (recurse (includeTarget dir (pyStrip l))).isSome = true :=
          htg _ (List.mem_cons_self _ _)
        cases hr : recurse (includeTarget dir (pyStrip l)) with
        | none =>
          rw [hr] at h1
          exact absurd h1 (by simp)
        | some sub =>
          exact ih _ (fun q hq => htg q (List.mem_cons_of_mem _ hq))
      | false =>
        rw [processLines_cons_add hs hi]
        rw [includeTargets_cons_add hs hi] at htg
        exact ih _ htg

theorem mem_keysFS_of_lookup {fs : FS} {p : String} {c : String}
    (h : lookupFS fs p = some c) : p ∈ keysFS fs := by
  induction fs with
  | nil => exact absurd h (by simp [lookupFS])
  | cons kv rest ih =>
    obtain ⟨k, v⟩ := kv
    by_cases hk : k = p
    · subst hk
      simp [keysFS]
    · rw [lookupFS, if_neg hk] at h
      have := ih h
      simp only [keysFS, List.map_cons, List.toFinset_cons, Finset.mem_insert]
      right
      simpa [keysFS] using this

theorem step_of_include_target {fs : FS} {p content q : String}
    (hl : lookupFS fs p = some content)
    (hq : q ∈ includeTargets (dirname p) (pySplitlines content)) :
    Step fs p q := by
  show q ∈ stepTargets fs p
  unfold stepTargets
  rw [hl]
  exact hq

theorem parseFuel_isSome_of_acyclic (fs : FS) (hacy : Acyclic fs) :
    ∀ (n : Nat) (p : String) (anc : Finset String), anc ⊆ keysFS fs →
      (∀ a ∈ anc, Relation.TransGen (Step fs) a p) →
      (keysFS fs).card ≤ anc.card + n →
      (parseFuel fs (n + 1) p).isSome = true := by
  intro n
  induction n with
  | zero =>
    intro p anc hsub hanc hcard
    rw [parseFuel_succ]
    cases hl : lookupFS fs p with
    | none => rfl
    | some content =>
      exfalso
      have hpk : p ∈ keysFS fs := mem_keysFS_of_lookup hl
      have hpa : p ∉ anc := by
        intro hp
        exact hacy p (hanc p hp)
      have h1 : (insert p anc).card ≤ (keysFS fs).card :=
        Finset.card_le_card (Finset.insert_subset hpk hsub)
      rw [Finset.card_insert_of_not_mem hpa] at h1
      omega
  | succ m ih =>
    intro p anc hsub hanc hcard
    rw [parseFuel_succ]
    cases hl : lookupFS fs p with
    | none => rfl
    | some content =>
      have hpk : p ∈ keysFS fs := mem_keysFS_of_lookup hl
      have hpa : p ∉ anc := by
        intro hp
        exact hacy p (hanc p hp)
      apply processLines_isSome
      intro q hq
      have hstep : Step fs p q := step_of_include_target hl hq
      refine ih q (insert p anc) (Finset.insert_subset hpk hsub) ?_ ?_
      · intro a ha
        rcases Finset.mem_insert.mp ha with rfl | ha2
        · exact Relation.TransGen.single hstep
        · exact Relation.TransGen.tail (hanc a ha2) hstep
      · rw [Finset.card_insert_of_not_mem hpa]
        omega

theorem parseFuel_total_of_acyclic (fs : FS) (h : Acyclic fs) (p : String) :
    ∃ r, parseFuel fs ((keysFS fs).card + 1) p = some r := by
  have hs := parseFuel_isSome_of_acyclic fs h (keysFS fs).card p ∅
    (Finset.empty_subset _) (fun a ha => absurd ha (Finset.not_mem_empty a))
    (by simp)
  rcases ho : parseFuel fs ((keysFS fs).card + 1) p with _ | r
  · rw [ho] at hs
    exact absurd hs (by simp)
  · exact ⟨r, rfl⟩

theorem splitOnPred_of_not_any {p : Char → Bool} :
    ∀ {xs : List Char}, xs.any p = false → splitOnPred p xs = [xs] := by
  intro xs
  induction xs with
  | nil => intro _; rfl
  | cons a xs ih =>
    intro h
    rw [List.any_cons, Bool.or_eq_false_iff] at h
    rw [splitOnPred, if_neg (by simp [h.1]), ih h.2]

theorem two_le_length_splitOnPred {p : Char → Bool} :
    ∀ {xs : List Char}, xs.any p = true → 2 ≤ (splitOnPred p xs).length := by
  intro xs
  induction xs with
  | nil => intro h; simp at h
  | cons a xs ih =>
    intro h
    cases hp : p a with
    | true =>
      rw [splitOnPred, if_pos (by simp [hp])]
      have h1 : (splitOnPred p xs).length ≠ 0 :=
        fun h0 => splitOnPred_ne_nil p xs (List.eq_nil_of_length_eq_zero h0)
      simp only [List.length_cons]
      omega
    | false =>
      rw [List.any_cons, hp, Bool.false_or] at h
      have h2 := ih h
      rw [splitOnPred, if_neg (by simp [hp])]
      rcases hs : splitOnPred p xs with _ | ⟨s, ss⟩
      · exact absurd hs (splitOnPred_ne_nil p xs)
      · rw [hs] at h2
        simpa using h2

theorem getLastD_splitOnPred_cons_of_any {p : Char → Bool} {xs : List Char}
    (hx : xs.any p = true) (a : Char) :
    (splitOnPred p (a :: xs)).getLastD [] = (splitOnPred p xs).getLastD [] := by
  cases hp : p a with
  | true =>
    rw [splitOnPred, if_pos (by simp [hp])]
    exact List.getLastD_cons _ _ _
  | false =>
    rw [splitOnPred, if_neg (by simp [hp])]
    rcases hs : splitOnPred p xs with _ | ⟨s, ss⟩
    · exact absurd hs (splitOnPred_ne_nil p xs)
    · have h2 := two_le_length_splitOnPred hx
      rw [hs] at h2
      rcases ss with _ | ⟨s2, ss2⟩
      · simp at h2
      · simp [List.getLastD_cons]

theorem takeWhile_append_of_exists {q : Char → Bool} :
    ∀ {l : List Char} (a : Char), (∃ x ∈ l, q x = false) →
      (l ++ [a]).takeWhile q = l.takeWhile q := by
  intro l
  induction l with
  | nil =>
    intro a h
    obtain ⟨x, hx, _⟩ := h
    exact absurd hx (List.not_mem_nil x)
  | cons b l ih =>
    intro a h
    cases hb : q b with
    | false => simp [List.takeWhile_cons, hb]
    | true =>
      simp only [List.cons_append, List.takeWhile_cons, hb, if_true]
      obtain ⟨x, hx, hqx⟩ := h
      rcases List.mem_cons.mp hx with rfl | hx2
      · rw [hb] at hqx
        cases hqx
      · rw [ih a ⟨x, hx2, hqx⟩]

theorem takeWhile_append_of_all {q : Char → Bool} :
    ∀ {l : List Char} (l2 : List Char), (∀ x ∈ l, q x = true) →
      (l ++ l2).takeWhile q = l ++ l2.takeWhile q := by
  intro l
  induction l with
  | nil => intro l2 _; rfl
  | cons b l ih =>
    intro l2 h
    have hb : q b = true := h b (List.mem_cons_self b l)
    simp only [List.cons_append, List.takeWhile_cons, hb, if_true,
      List.cons.injEq, true_and]
    exact ih l2 (fun x hx => h x (List.mem_cons_of_mem b hx))

theorem getLastD_splitOnPred (p : Char → Bool) :
    ∀ (xs : List Char),
      (splitOnPred p xs).getLastD [] =
        (xs.reverse.takeWhile (fun c => !p c)).reverse := by
  intro xs
  induction xs with
  | nil => rfl
  | cons a xs ih =>
    cases hx : xs.any p with
    | true =>
      rw [getLastD_splitOnPred_cons_of_any hx a, ih]
      have hrev : ∃ x ∈ xs.reverse, (!p x) = false := by
        obtain ⟨x, hx1, hx2⟩ := List.any_eq_true.mp hx
        exact ⟨x, List.mem_reverse.mpr hx1, by simp [hx2]⟩
      rw [List.reverse_cons, takeWhile_append_of_exists a hrev]
    | false =>
      have hall : ∀ x ∈ xs.reverse, (!p x) = true := by
        intro x hx2
        have h3 : ¬ (p x = true) := by
          intro hpx
          have h4 : xs.any p = true :=
            List.any_eq_true.mpr ⟨x, List.mem_reverse.mp hx2, hpx⟩
          rw [hx] at h4
          cases h4
        simp [Bool.not_eq_true] at h3
        simp [h3]
      cases hp : p a with
      | true =>
        rw [splitOnPred, if_pos (by simp [hp]), splitOnPred_of_not_any hx]
        rw [List.getLastD_cons, List.reverse_cons,
          takeWhile_append_of_all [a] hall]
        simp [List.takeWhile_cons, hp]
      | false =>
        rw [splitOnPred, if_neg (by simp [hp]), splitOnPred_of_not_any hx]
        rw [List.reverse_cons, takeWhile_append_of_all [a] hall]
        simp [List.takeWhile_cons, hp]

theorem lastSpaceTok_eq_suffix_after_last_space (l : String) :
    lastSpaceTok l =
      String.mk ((l.data.reverse.takeWhile (fun c => !(c = ' '))).reverse) := by
  unfold lastSpaceTok
  rw [getLastD_splitOnPred]

theorem parseFuel_cycle_none :
    ∀ n, parseFuel [("/d/A.txt", "-r A.txt")] n "/d/A.txt" = none := by
  intro n
  induction n with
  | zero => rfl
  | succ m ih =>
    calc parseFuel [("/d/A.txt", "-r A.txt")] (m + 1) "/d/A.txt"
        = (match parseFuel [("/d/A.txt", "-r A.txt")] m "/d/A.txt" with
           | none => none
           | some sub =>
             some ((∅ : Finset String) ∪ sub)) := rfl
      _ = none := by rw [ih]

theorem processLines_none_of_target {recurse : String → Option (Finset String)}
    {dir : String} :
    ∀ (ls : List String) (acc : Finset String) (q : String),
      q ∈ includeTargets dir ls → recurse q = none →
      processLines recurse dir ls acc = none := by
  intro ls
  induction ls with
  | nil =>
    intro acc q hq
    rw [includeTargets_nil] at hq
    exact absurd hq (List.not_mem_nil q)
  | cons l rest ih =>
    intro acc q hq hnone
    cases hs : isSkipLine (pyStrip l) with
    | true =>
      rw [processLines_cons_skip hs]
      rw [includeTargets_cons_skip hs] at hq
      exact ih acc q hq hnone
    | false =>
      cases hi : isIncludeDirective (pyStrip l) with
      | true =>
        rw [processLines_cons_include hi]
        rw [includeTargets_cons_include hi] at hq
        rcases List.mem_cons.mp hq with rfl | hq2
        · rw [hnone]
        · cases hr : recurse (includeTarget dir (pyStrip l)) with
          | none => rfl
          | some sub => exact ih _ q hq2 hnone
      | false =>
        rw [processLines_cons_add hs hi]
        rw [includeTargets_cons_add hs hi] at hq
        exact ih _ q hq hnone

theorem step_targets_of_lookup {fs : FS} {p q : String}
    (h : Step fs p q) :
    ∃ content, lookupFS fs p = some content ∧
      q ∈ includeTargets (dirname p) (pySplitlines content) := by
  have hq : q ∈ stepTargets fs p := h
  unfold stepTargets at hq
  cases hl : lookupFS fs p with
  | none =>
    rw [hl] at hq
    exact absurd hq (List.not_mem_nil q)
  | some content =>
    rw [hl] at hq
    exact ⟨content, rfl, hq⟩

theorem parseFuel_none_of_reaches_cycle (fs : FS) :
    ∀ (n : Nat) (p c : String), Relation.ReflTransGen (Step fs) p c →
      Relation.TransGen (Step fs) c c → parseFuel fs n p = none := by
  intro n
  induction n with
  | zero => intro p c _ _; rfl
  | succ m ih =>
    intro p c hreach hcyc
    have hstep : ∃ q, Step fs p q ∧ Relation.ReflTransGen (Step fs) q c := by
      rcases hreach.cases_head with rfl | ⟨q, h1, h2⟩
      · exact Relation.TransGen.head'_iff.mp hcyc
      · exact ⟨q, h1, h2⟩
    obtain ⟨q, hq, hqc⟩ := hstep
    obtain ⟨content, hl, htg⟩ := step_targets_of_lookup hq
    rw [parseFuel_succ, hl]
    exact processLines_none_of_target _ ∅ q htg (ih q c hqc hcyc)

theorem acyclic_nil : Acyclic [] := by
  intro p h
  have hstep : ∀ a b : String, ¬ Step [] a b := by
    intro a b hab
    simp [Step, stepTargets, lookupFS] at hab
  cases h with
  | single h1 => exact hstep _ _ h1
  | tail _ h2 => exact hstep _ _ h2

/-- C1: `parse` of a path that does not exist on the filesystem returns the
empty set rather than an error, at every recursion level: an include of a
missing file contributes nothing while parsing continues. -/
theorem parse_missing_file_empty :
    (∀ (fs : FS) (p : String) (n : Nat), lookupFS fs p = none →
      parseFuel fs (n + 1) p = some ∅) ∧
    parseFuel [("/d/A.txt", "-r missing.txt\nflask")] 2 "/d/A.txt" =
      some {"flask"} := by
  constructor
  · intro fs p n h
    rw [parseFuel_succ, h]
  · decide

/-- Witness for C1 at a concrete missing path. -/
theorem parse_missing_file_empty_witness :
    lookupFS [] "/nope.txt" = none ∧ parseFuel [] 1 "/nope.txt" = some ∅ :=
  ⟨rfl, parse_missing_file_empty.1 [] "/nope.txt" 0 rfl⟩

/-- C2: `parse_line` returns the portion of the line before the first
delimiter character (`;`, `[`, `~`, `>`, `=`, `<`), trimmed; in particular
`"Django==3.2"` gives `"Django"` and
`"requests[security]>=2.0; python_version>'3.6'"` gives `"requests"`. -/
theorem parse_line_before_first_delimiter :
    (∀ l : String, parse_line l =
      pyStrip (String.mk (l.data.takeWhile (fun c => !isDelim c)))) ∧
    parse_line "Django==3.2" = "Django" ∧
    parse_line "requests[security]>=2.0; python_version>\x273.6\x27" =
      "requests" := by
  refine ⟨?_, by decide, by decide⟩
  intro l
  unfold parse_line pyStrip
  rw [headD_splitOnPred]

/-- C3: an include line recursively parses the referenced file, resolved
against the current file's directory, unioning its results and contributing
no identifier itself; concretely, A containing `-r B.txt` with sibling B
containing `requests` parses to exactly `{"requests"}`. -/
theorem parse_recursive_include :
    parseFuel [("/d/A.txt", "-r B.txt"), ("/d/B.txt", "requests")] 2 "/d/A.txt"
      = some {"requests"} ∧
    (∀ (recurse : String → Option (Finset String)) (dir l : String)
        (rest : List String) (acc : Finset String),
      isIncludeDirective (pyStrip l) = true →
      processLines recurse dir (l :: rest) acc =
        match recurse (includeTarget dir (pyStrip l)) with
        | none => none
        | some sub => processLines recurse dir rest (acc ∪ sub)) := by
  refine ⟨by decide, ?_⟩
  intro recurse dir l rest acc h
  exact processLines_cons_include h recurse dir rest acc

/-- Witness for C3 at a concrete include line. -/
theorem parse_recursive_include_witness :
    processLines (fun _ => some {"requests"}) "/d" ["-r B.txt"] ∅ =
      some {"requests"} ∧
    parseFuel [("/d/A.txt", "-r B.txt"), ("/d/B.txt", "requests")] 2 "/d/A.txt"
      = some {"requests"} := by
  constructor
  · rw [parse_recursive_include.2 (fun _ => some {"requests"}) "/d" "-r B.txt"
      [] ∅ (by decide)]
    decide
  · exact parse_recursive_include.1

/-- C4 counterexample: with a tab between `-r` and the filename, the path
used is NOT the final whitespace-separated token (`B.txt`) but the whole
line, so the sibling file is not found and the include contributes nothing —
refuting "for any kind of whitespace". -/
theorem include_token_tab_counterexample :
    lastSpaceTok "-r\tB.txt" = "-r\tB.txt" ∧
    ("-r\tB.txt" : String) ≠ "B.txt" ∧
    includeTarget "/d" "-r\tB.txt" = "/d/-r\tB.txt" ∧
    parseFuel [("/d/A.txt", "-r\tB.txt"), ("/d/B.txt", "requests")] 2
      "/d/A.txt" = some ∅ ∧
    (some (∅ : Finset String) ≠ some ({"requests"} : Finset String)) := by
  decide

/-- C4 amended: for every include line, the path used for the recursive
resolution is the final token of the line when split on the space character
`' '` specifically — the maximal suffix containing no space; whitespace other
than `' '` (e.g. a tab) does not separate tokens. -/
theorem include_token_space_amended :
    (∀ dir l : String, isIncludeDirective (pyStrip l) = true →
      includeTarget dir (pyStrip l) =
        osJoin dir (String.mk
          (((pyStrip l).data.reverse.takeWhile (fun c => !(c = ' '))).reverse)))
      ∧
    lastSpaceTok "-r B.txt" = "B.txt" := by
  constructor
  · intro dir l _
    unfold includeTarget
    rw [lastSpaceTok_eq_suffix_after_last_space]
  · decide

/-- Witness for the amended C4 at a concrete include line. -/
theorem include_token_space_amended_witness :
    isIncludeDirective (pyStrip "-r B.txt") = true ∧
    includeTarget "/d" (pyStrip "-r B.txt") =
      osJoin "/d" (String.mk
        (((pyStrip "-r B.txt").data.reverse.takeWhile
          (fun c => !(c = ' '))).reverse)) :=
  ⟨by decide,
    include_token_space_amended.1 "/d" "-r B.txt" (by decide)⟩

/-- C5: lines that are empty after trimming, or begin with `#` or with three
double quotes, contribute nothing to the result of `parse`: the loop skips
them, and a file of only such lines parses to the empty set. -/
theorem parse_skips_blank_comment_docstring :
    (∀ (recurse : String → Option (Finset String)) (dir l : String)
        (rest : List String) (acc : Finset String),
      (pyStrip l = "" ∨ strStarts "#" (pyStrip l) = true ∨
        strStarts "\"\"\"" (pyStrip l) = true) →
      processLines recurse dir (l :: rest) acc =
        processLines recurse dir rest acc) ∧
    (∀ (fs : FS) (p content : String) (n : Nat),
      lookupFS fs p = some content →
      (∀ l ∈ pySplitlines content,
        pyStrip l = "" ∨ strStarts "#" (pyStrip l) = true ∨
        strStarts "\"\"\"" (pyStrip l) = true) →
      parseFuel fs (n + 1) p = some ∅) := by
  have hskip : ∀ l : String,
      (pyStrip l = "" ∨ strStarts "#" (pyStrip l) = true ∨
        strStarts "\"\"\"" (pyStrip l) = true) →
      isSkipLine (pyStrip l) = true := by
    intro l h
    rcases h with h | h | h <;> simp [isSkipLine, h]
  constructor
  · intro recurse dir l rest acc h
    exact processLines_cons_skip (hskip l h) recurse dir rest acc
  · intro fs p content n hl hall
    rw [parseFuel_succ, hl]
    exact processLines_all_skip _ ∅ (fun l hl2 => hskip l (hall l hl2))

/-- Witness for C5: a file of a comment line, a blank line and a
whitespace-only line parses to the empty set. -/
theorem parse_skips_blank_comment_docstring_witness :
    parseFuel [("/a/r.txt", "# hi\n\n   \n\"\"\" stray")] 1 "/a/r.txt" =
      some ∅ :=
  parse_skips_blank_comment_docstring.2 [("/a/r.txt", "# hi\n\n   \n\"\"\" stray")]
    "/a/r.txt" "# hi\n\n   \n\"\"\" stray" 0 (by decide) (by decide)

/-- C6: a malformed specifier line is not rejected: `parse_line` of any line
whose first character is a delimiter is the empty string, and such a line
inside a file puts the empty-string identifier into `parse`'s result set,
unfiltered. -/
theorem malformed_line_empty_identifier :
    (∀ (s : String) (d : Char) (ds : List Char), s.data = d :: ds →
      isDelim d = true → parse_line s = "") ∧
    (∀ (fs : FS) (p content l : String) (n : Nat) (r : Finset String)
        (d : Char) (ds : List Char),
      lookupFS fs p = some content → l ∈ pySplitlines content →
      isSkipLine (pyStrip l) = false → isIncludeDirective (pyStrip l) = false →
      (pyStrip l).data = d :: ds → isDelim d = true →
      parseFuel fs (n + 1) p = some r → "" ∈ r) := by
  have hA : ∀ (s : String) (d : Char) (ds : List Char), s.data = d :: ds →
      isDelim d = true → parse_line s = "" := by
    intro s d ds hd hdel
    unfold parse_line
    rw [headD_splitOnPred, hd]
    simp [List.takeWhile_cons, hdel, stripChars, trimAtStart, trimAtEnd]
  refine ⟨hA, ?_⟩
  intro fs p content l n r d ds hl hline hskip hincl hd hdel h
  rw [parseFuel_succ, hl] at h
  have hmem := mem_of_processLines (pySplitlines content) ∅ r l hline hskip
    hincl h
  rwa [hA (pyStrip l) d ds hd hdel] at hmem

/-- Witness for C6: the file `==1.0` yields the result set containing only
the empty-string identifier. -/
theorem malformed_line_empty_identifier_witness :
    parseFuel [("/d/A.txt", "==1.0")] 1 "/d/A.txt" = some {""} ∧
    "" ∈ ({""} : Finset String) :=
  ⟨by decide,
    malformed_line_empty_identifier.2 [("/d/A.txt", "==1.0")] "/d/A.txt"
      "==1.0" "==1.0" 0 {""} '=' "=1.0".data (by decide) (by decide)
      (by decide) (by decide) (by decide) (by decide) (by decide)⟩

/-- C7: `parse` has no cycle guard: on every filesystem whose include graph
is acyclic, some fuel suffices (the recursion terminates with a set), while
from every path that reaches a cycle of the include graph no amount of fuel
suffices (the recursion never returns). -/
theorem parse_include_cycle_behavior :
    (∀ fs : FS, Acyclic fs → ∀ p : String,
      ∃ n r, parseFuel fs n p = some r) ∧
    (∀ (fs : FS) (p c : String), Relation.ReflTransGen (Step fs) p c →
      Relation.TransGen (Step fs) c c →
      ∀ n, parseFuel fs n p = none) := by
  constructor
  · intro fs h p
    obtain ⟨r, hr⟩ := parseFuel_total_of_acyclic fs h p
    exact ⟨_, r, hr⟩
  · intro fs p c hreach hcyc n
    exact parseFuel_none_of_reaches_cycle fs n p c hreach hcyc

/-- Witness for C7: the empty filesystem is acyclic and parsing on it
terminates; the filesystem where `/d/A.txt` includes itself has a cycle and
parsing it returns no result at fuel 5. -/
theorem parse_include_cycle_behavior_witness :
    (∃ n r, parseFuel [] n "/x.txt" = some r) ∧
    parseFuel [("/d/A.txt", "-r A.txt")] 5 "/d/A.txt" = none := by
  refine ⟨parse_include_cycle_behavior.1 [] acyclic_nil "/x.txt", ?_⟩
  apply parse_include_cycle_behavior.2 [("/d/A.txt", "-r A.txt")] "/d/A.txt"
    "/d/A.txt" Relation.ReflTransGen.refl
  apply Relation.TransGen.single
  show "/d/A.txt" ∈ stepTargets [("/d/A.txt", "-r A.txt")] "/d/A.txt"
  decide

/-- C10: every string in a set returned by `parse` contains no delimiter
character and equals its own trim; this excludes neither the empty string
nor identifiers with internal spaces or `#`, as from an inline comment. -/
theorem parse_result_invariant :
    (∀ (fs : FS) (n : Nat) (p : String) (r : Finset String),
      parseFuel fs n p = some r →
      ∀ x ∈ r, (∀ c ∈ x.data, isDelim c = false) ∧ pyStrip x = x) ∧
    parse_line "flask # web" = "flask # web" ∧
    parse_line ";x" = "" := by
  refine ⟨?_, by decide, by decide⟩
  intro fs n p r h
  exact parseFuel_good fs n p r h

/-- Witness for C10 on a concrete one-file parse. -/
theorem parse_result_invariant_witness :
    (∀ c ∈ ("requests" : String).data, isDelim c = false) ∧
    pyStrip "requests" = "requests" :=
  parse_result_invariant.1 [("/d/B.txt", "requests")] 1 "/d/B.txt"
    {"requests"} (by decide) "requests" (by decide)

end Requirements

namespace CrashHandling

/-- C8: the claim that every failing tool probe is caught inside
`_create_issue_body` is violated by the code: the `gcloud` handler binds `e`
and yields a placeholder, but the `docker` (and `cloud_sql_proxy`) handlers
read the unbound name `e`, so a failing `docker --version` raises `NameError`
out of `_create_issue_body` instead of embedding a placeholder. -/
theorem create_issue_body_docker_probe_raises :
    create_issue_body
      ⟨.fails ⟨"gcloud broke"⟩, .output "Docker version 18.09", .output "1.13"⟩
      "django-cloud-deploy new" =
      .ok (renderIssueTemplate "django-cloud-deploy new"
        ("Error: " ++ pyRepr "gcloud broke") "Docker version 18.09" "1.13") ∧
    create_issue_body
      ⟨.absent, .fails ⟨"docker broke"⟩, .absent⟩
      "django-cloud-deploy new" = .error (.nameError "e") ∧
    create_issue_body
      ⟨.absent, .output "Docker version 18.09", .fails ⟨"proxy broke"⟩⟩
      "django-cloud-deploy new" = .error (.nameError "e") := by
  refine ⟨rfl, rfl, rfl⟩

/-- C9: `handle_crash` on an instance of the distinguished user-code error
class performs none of the crash-reporting effects and raises the error's
original cause. -/
theorem handle_crash_user_error :
    ∀ (err : PyError) (command : String) (env : ToolEnv)
      (logPath : String) (answers : List String),
      err.isUserError = true →
      handle_crash err command env logPath answers =
        ([], some (.rethrow err.cause)) := by
  intro err command env logPath answers h
  unfold handle_crash
  simp [h]

/-- Witness for C9 at a concrete user error. -/
theorem handle_crash_user_error_witness :
    handle_crash
      ⟨true, some "ZeroDivisionError", "UserError", "bad user code"⟩
      "django-cloud-deploy new" ⟨.absent, .absent, .absent⟩ "/tmp/log" [] =
      ([], some (.rethrow (some "ZeroDivisionError"))) :=
  handle_crash_user_error _ _ _ _ _ rfl

end CrashHandling
